import Mathlib

set_option autoImplicit false

namespace PyProjectFactory

/-- Strings are modelled as lists of characters. -/
abbrev Str := List Char

/-- The left-brace character of a placeholder token. -/
def lbrace : Char := '\x7b'

/-- The right-brace character of a placeholder token. -/
def rbrace : Char := '\x7d'

/-- Python str.upper, restricted to the ASCII keys used by the script. -/
def pyUpper (s : Str) : Str := s.map Char.toUpper

/-- The placeholder token built from a configuration key by
f-string interpolation in the script: two left braces, the upper-cased key,
two right braces. -/
def placeholderOf (key : Str) : Str :=
  lbrace :: lbrace :: (pyUpper key ++ [rbrace, rbrace])

/-- Fuel-indexed model of Python str.replace with a nonempty pattern:
scan left to right, replace each non-overlapping occurrence of old by new.
The fuel dominates the length of the string, so the fuel-exhausted branch is
never taken in the wrapper below. (Python str.replace with an empty pattern
behaves differently, but every pattern used by the script is a placeholder
token of length at least four.) -/
def pyReplaceF (old new : Str) : Nat → Str → Str
  | _, [] => []
  | fuel + 1, c :: rest =>
    if old ≠ [] ∧ old.isPrefixOf (c :: rest) then
      new ++ pyReplaceF old new fuel ((c :: rest).drop old.length)
    else
      c :: pyReplaceF old new fuel rest
  | 0, s => s

/-- Model of Python str.replace(old, new) for the nonempty patterns the
script uses. -/
def pyReplace (old new s : Str) : Str :=
  pyReplaceF old new s.length s

/-- The replacement loop of replace_template_vars and of the path rendering
in process_template_directory: one str.replace pass per configuration field,
in dictionary iteration order. -/
def renderStr (fields : List (Str × Str)) (s : Str) : Str :=
  fields.foldl (fun acc kv => pyReplace (placeholderOf kv.1) kv.2 acc) s

/-- A concrete configuration record in which the value of field a is
literally the placeholder token of field b, and b comes later in
dictionary iteration order. -/
def cexFieldsC3 : List (Str × Str) :=
  [("a".toList, placeholderOf "b".toList), ("b".toList, "x".toList)]

/-- Python str.strip on ASCII whitespace. -/
def pyIsSpace (c : Char) : Bool :=
  c == ' ' || c == '\t' || c == '\n' || c == '\r' || c == '\x0b' || c == '\x0c'

/-- Python str.strip. -/
def pyStrip (s : Str) : Str :=
  ((s.dropWhile pyIsSpace).reverse.dropWhile pyIsSpace).reverse

/-- Python str.lower, restricted to the ASCII answers the prompt compares
against. -/
def pyLower (s : Str) : Str := s.map Char.toLower

/-- Digit-string parsing: the body of Python int() on an already stripped
string of decimal digits. -/
def parseNatDigits (s : Str) : Option Nat :=
  if s ≠ [] ∧ s.all Char.isDigit then
    some (s.foldl (fun a c => a * 10 + (c.toNat - 48)) 0)
  else none

/-- Model of Python int() on an already stripped string: an optional sign
followed by decimal digits, ValueError modelled as none. -/
def parseInt (s : Str) : Option Int :=
  match s with
  | '+' :: rest => (parseNatDigits rest).map (fun n => (n : Int))
  | '-' :: rest => (parseNatDigits rest).map (fun n => -(n : Int))
  | _ => (parseNatDigits s).map (fun n => (n : Int))

/-- A value returned by get_user_input: a boolean in boolean mode, a string
otherwise. -/
inductive PValue where
  | bool (b : Bool)
  | str (s : Str)
deriving DecidableEq

/-- The keyword arguments of get_user_input (the prompt text plays no role in
the returned value and is omitted). -/
structure PromptSpec where
  default : Option Str
  choices : List Str
  validator : Option (Str → Bool)
  is_bool : Bool

/-- Accepted affirmative answers of boolean mode. -/
def yesAnswers : List Str := ["y".toList, "yes".toList, "true".toList, "1".toList]

/-- Accepted negative answers of boolean mode. -/
def noAnswers : List Str := ["n".toList, "no".toList, "false".toList, "0".toList]

/-- The effective input of one loop iteration: the raw answer stripped, with a
truthy (non-None, nonempty) default substituted for an empty answer. -/
def promptInput (p : PromptSpec) (raw : Str) : Str :=
  match p.default with
  | some d => if pyStrip raw = [] ∧ d ≠ [] then d else pyStrip raw
  | none => pyStrip raw

/-- One iteration of the get_user_input loop: some value means return, none
means print a message and re-prompt. -/
def promptStep (p : PromptSpec) (raw : Str) : Option PValue :=
  if p.is_bool then
    if pyLower (promptInput p raw) ∈ yesAnswers then some (PValue.bool true)
    else if pyLower (promptInput p raw) ∈ noAnswers then some (PValue.bool false)
    else none
  else if p.choices ≠ [] then
    match parseInt (promptInput p raw) with
    | some n =>
      if 0 ≤ n - 1 ∧ n - 1 < (p.choices.length : Int) then
        some (PValue.str (p.choices.getD (n - 1).toNat []))
      else none
    | none =>
      if promptInput p raw ∈ p.choices then some (PValue.str (promptInput p raw)) else none
  else
    match p.validator with
    | some V => if V (promptInput p raw) then some (PValue.str (promptInput p raw)) else none
    | none => some (PValue.str (promptInput p raw))

/-- get_user_input over a stream of answers: iterate the loop body on
successive answers until one is accepted; none models the loop still running
(re-prompting) after the whole stream was consumed. -/
def get_user_input (p : PromptSpec) : List Str → Option PValue
  | [] => none
  | i :: rest =>
    match promptStep p i with
    | some v => some v
    | none => get_user_input p rest

/-- Validity of a returned value with respect to the prompt specification:
booleans only in boolean mode; in choices mode an element of the choices
list; otherwise a string accepted by the validator when one is supplied. -/
def validAnswer (p : PromptSpec) : PValue → Prop
  | PValue.bool _ => p.is_bool = true
  | PValue.str s =>
      p.is_bool = false ∧ (p.choices ≠ [] → s ∈ p.choices) ∧
        (p.choices = [] → ∀ V, p.validator = some V → V s = true)

/-- The configuration record built by collect_project_info: the dictionary
entries as stringified key-value pairs in iteration order (used by the
renderer), together with the feature flags consulted by the file selector. -/
structure Config where
  fields : List (Str × Str)
  use_docker : Bool
  use_pre_commit : Bool
  use_github_actions : Bool
  use_jupyter : Bool
  use_spark : Bool

/-- A file enumerated by src_dir.rglob: its path components relative to the
source root, its text content, and whether its bytes decode as UTF-8. The
filesystem is abstracted as a flat map from paths to contents. -/
structure SrcFile where
  rel : List Str
  content : Str
  decodable : Bool

/-- str(rel_path): the POSIX join of the path components. -/
def joinPath : List Str → Str
  | [] => []
  | [comp] => comp
  | comp :: rest => comp ++ '/' :: joinPath rest

/-- item.name: the final component of the relative path. -/
def srcName (f : SrcFile) : Str := f.rel.getLast?.getD []

/-- The skip_files set built at the top of process_template_directory from
the feature flags (a list; only membership is ever used). -/
def skipFiles (c : Config) : List Str :=
  (if !c.use_docker then
      ["Dockerfile.dev".toList, "Dockerfile.data".toList, "docker-compose.yml".toList]
    else []) ++
  (if !c.use_pre_commit then [".pre-commit-config.yaml".toList] else []) ++
  (if !c.use_github_actions then [".github".toList] else []) ++
  (if !c.use_jupyter then ["notebooks".toList, "Dockerfile.data".toList] else []) ++
  (if !c.use_spark then
      ["src/\x7b\x7bPROJECT_NAME\x7d\x7d/spark_utils.py".toList,
        "scripts/setup_spark.py".toList]
    else [])

/-- The Python substring operator: pat in s. -/
def strContains (s pat : Str) : Bool :=
  match s with
  | [] => pat.isEmpty
  | c :: rest => pat.isPrefixOf (c :: rest) || strContains rest pat

/-- The skip test of the walk: any(skip in str(rel_path) for skip in
skip_files), substring match. -/
def excludedFile (c : Config) (f : SrcFile) : Bool :=
  (skipFiles c).any (fun frag => strContains (joinPath f.rel) frag)

/-- item.relative_to(dst_dir) succeeds exactly when the destination root's
components are a prefix of the file's absolute components. -/
def insideDst (srcRoot dstRoot : List Str) (f : SrcFile) : Bool :=
  dstRoot.isPrefixOf (srcRoot ++ f.rel)

/-- Index of the last character satisfying a predicate. -/
def rfindIdx (p : Char → Bool) (s : Str) : Option Nat :=
  match s.reverse.findIdx? p with
  | none => none
  | some j => some (s.length - 1 - j)

/-- Split a path string into the part up to and including the last slash and
the final component. -/
def splitLastSlash (s : Str) : Str × Str :=
  match rfindIdx (fun ch => ch == '/') s with
  | some i => (s.take (i + 1), s.drop (i + 1))
  | none => ([], s)

/-- pathlib suffix of a file name: the part from the last dot, provided that
dot is neither the leading character nor the last one. -/
def pySuffix (name : Str) : Str :=
  match rfindIdx (fun ch => ch == '.') name with
  | some i => if 0 < i ∧ i + 1 < name.length then name.drop i else []
  | none => []

/-- pathlib with_suffix applied to the final component of a path string:
drop the suffix of the final component when there is one, else leave the
path unchanged. -/
def withSuffixEmpty (s : Str) : Str :=
  match rfindIdx (fun ch => ch == '.') (splitLastSlash s).2 with
  | some i =>
    if 0 < i ∧ i + 1 < (splitLastSlash s).2.length then
      (splitLastSlash s).1 ++ (splitLastSlash s).2.take i
    else s
  | none => s

/-- The destination relative path of a source file: the relative path string
rendered through the placeholder replacements, then, when the source file
name ends in the template suffix, stripped of the final suffix by
with_suffix. -/
def dstRelPath (c : Config) (f : SrcFile) : Str :=
  if ".template".toList.isSuffixOf (srcName f) then
    withSuffixEmpty (renderStr c.fields (joinPath f.rel))
  else renderStr c.fields (joinPath f.rel)

/-- The binary-extension denylist of replace_template_vars. -/
def binarySuffixes : List Str :=
  [".pyc".toList, ".pyo".toList, ".so".toList, ".dylib".toList, ".dll".toList]

/-- replace_template_vars: the resulting content of a destination file.
Binary suffixes are returned unchanged; a UnicodeDecodeError leaves the file
as copied; a PermissionError or OSError (substErr) is caught and leaves the
file as copied; otherwise each placeholder is replaced. -/
def replace_template_vars (fields : List (Str × Str)) (path content : Str)
    (decodable substErr : Bool) : Str :=
  if pySuffix (splitLastSlash path).2 ∈ binarySuffixes then content
  else if !decodable then content
  else if substErr then content
  else renderStr fields content

/-- Filesystem failures injected into a walk: copyErr models mkdir or
shutil.copy2 raising, substErr models read_text or write_text raising inside
replace_template_vars. -/
structure FsOracle where
  copyErr : SrcFile → Bool
  substErr : SrcFile → Bool

/-- The oracle of an error-free run. -/
def noFail : FsOracle := ⟨fun _ => false, fun _ => false⟩

/-- Final content of a processed destination file. -/
def outContent (c : Config) (o : FsOracle) (f : SrcFile) : Str :=
  replace_template_vars c.fields (dstRelPath c f) f.content f.decodable (o.substErr f)

/-- One iteration of the walk loop: skip files inside the destination, skip
excluded files, raise (uncaught) when the copy fails, otherwise write the
rendered file into the destination store. The store is an association list
in which the most recent write for a path shadows earlier ones. -/
def processOne (o : FsOracle) (c : Config) (srcRoot dstRoot : List Str)
    (st : List (Str × Str)) (f : SrcFile) : Except Unit (List (Str × Str)) :=
  if insideDst srcRoot dstRoot f then Except.ok st
  else if excludedFile c f then Except.ok st
  else if o.copyErr f then Except.error ()
  else Except.ok ((dstRelPath c f, outContent c o f) :: st)

/-- The walk loop over the enumerated files, propagating an uncaught copy
exception. -/
def processDir (o : FsOracle) (c : Config) (srcRoot dstRoot : List Str) :
    List SrcFile → List (Str × Str) → Except Unit (List (Str × Str))
  | [], st => Except.ok st
  | f :: rest, st =>
    match processOne o c srcRoot dstRoot st f with
    | Except.ok st' => processDir o c srcRoot dstRoot rest st'
    | Except.error e => Except.error e

/-- process_template_directory: run the walk over the enumeration of the
source tree starting from an empty destination store. -/
def process_template_directory (o : FsOracle) (c : Config) (srcRoot dstRoot : List Str)
    (files : List SrcFile) : Except Unit (List (Str × Str)) :=
  processDir o c srcRoot dstRoot files []

/-- A file is kept by the walk when it is neither inside the destination
root nor excluded. -/
def keepFile (c : Config) (srcRoot dstRoot : List Str) (f : SrcFile) : Bool :=
  !insideDst srcRoot dstRoot f && !excludedFile c f

/-- The state written by one error-free iteration of the walk loop. -/
def walkStep (o : FsOracle) (c : Config) (srcRoot dstRoot : List Str)
    (st : List (Str × Str)) (f : SrcFile) : List (Str × Str) :=
  if keepFile c srcRoot dstRoot f then (dstRelPath c f, outContent c o f) :: st else st

/-- The destination store produced by a walk in which no copy fails. -/
def walkOk (o : FsOracle) (c : Config) (srcRoot dstRoot : List Str)
    (files : List SrcFile) : List (Str × Str) :=
  files.foldl (walkStep o c srcRoot dstRoot) []

/-- The most recent write of the walk for a given destination path,
scanning the enumeration from its end. -/
def walkLookup (o : FsOracle) (c : Config) (srcRoot dstRoot : List Str) (p : Str) :
    List SrcFile → Option Str
  | [] => none
  | f :: fs =>
    match walkLookup o c srcRoot dstRoot p fs with
    | some v => some v
    | none =>
      if keepFile c srcRoot dstRoot f ∧ dstRelPath c f = p then some (outContent c o f)
      else none

/-- Character class of the first regex character of validate_project_name. -/
def isLowerAlpha (ch : Char) : Bool := 'a' ≤ ch && ch ≤ 'z'

/-- Character class of the final regex character of validate_project_name. -/
def isLowerAlnum (ch : Char) : Bool := isLowerAlpha ch || ('0' ≤ ch && ch ≤ '9')

/-- Character class of the middle regex characters of
validate_project_name. -/
def isNameMid (ch : Char) : Bool := isLowerAlnum ch || ch == '-'

/-- Matcher for the tail of the main pattern: zero or more middle characters
followed by one lowercase alphanumeric character. -/
def mainPatternTail : Str → Bool
  | [] => false
  | [ch] => isLowerAlnum ch
  | ch :: rest => isNameMid ch && mainPatternTail rest

/-- Full match of the main pattern of validate_project_name: a lowercase
letter, middle characters, a closing lowercase alphanumeric character. -/
def matchesMainPattern : Str → Bool
  | [] => false
  | ch :: rest => isLowerAlpha ch && mainPatternTail rest

/-- Full match of the relaxed single-letter pattern selected when the name
has length one. -/
def matchesSinglePattern : Str → Bool
  | [ch] => isLowerAlpha ch
  | _ => false

/-- The reserved-name set of validate_project_name. -/
def reservedNames : List Str :=
  ["test".toList, "tests".toList, "src".toList, "lib".toList, "bin".toList,
    "tmp".toList, "temp".toList, "build".toList, "dist".toList]

/-- validate_project_name: the length guard, the pattern selection (the
single-letter selection is unreachable because the length guard already
rejected length-one names), the regex match, the reserved-name check. -/
def validate_project_name (name : Str) : Bool :=
  if name.isEmpty || name.length < 2 || name.length > 214 then false
  else
    if !(if name.length = 1 then matchesSinglePattern name else matchesMainPattern name) then
      false
    else if name ∈ reservedNames then false
    else true

/-- The unconditional head of the removal list of get_files_to_remove. -/
def base_files_to_remove : List Str :=
  ["setup_project.py".toList, "ROADMAP.md".toList, "copier.yml".toList,
    "CLAUDE.md.template".toList, "docs/GITHUB_PROJECT_SETUP.md".toList,
    "docs/REPOSITORY_SETUP.md".toList, "docs/GITHUB_LABELS.md".toList,
    ".github/workflows/setup-repository-protection.yml".toList,
    ".github/workflows/ci.yml.template".toList]

/-- The three template documentation files checked before removing the docs
directory. -/
def template_docs : List Str :=
  ["docs/GITHUB_PROJECT_SETUP.md".toList, "docs/REPOSITORY_SETUP.md".toList,
    "docs/GITHUB_LABELS.md".toList]

/-- get_files_to_remove: the base list, the flag-gated groups in source
order, and the docs directory when every template doc file is already
slated. -/
def get_files_to_remove (c : Config) : List Str :=
  let l1 := base_files_to_remove ++ (if !c.use_jupyter then ["notebooks".toList] else [])
  let l2 := l1 ++ (if !c.use_spark then ["scripts/setup_spark.py".toList] else [])
  let l3 := l2 ++
    (if !c.use_docker then
        ["Dockerfile.dev".toList, "Dockerfile.data".toList, "docker-compose.yml".toList,
          ".dockerignore".toList]
      else [])
  let l4 := l3 ++
    (if !c.use_github_actions then
        [".github/workflows/ci.yml".toList, ".github/workflows/release.yml".toList]
      else [])
  let l5 := l4 ++ (if !c.use_pre_commit then [".pre-commit-config.yaml".toList] else [])
  l5 ++ (if template_docs.all (fun d => l5.contains d) then ["docs".toList] else [])

/-- Filesystem state seen by cleanup_template_files: removeErr models
exists, rmtree or unlink raising PermissionError or OSError for a path. -/
structure CleanupFs where
  removeErr : Str → Bool
  fileExists : Str → Bool
  isDir : Str → Bool

/-- The entry appended to removed_files for a removed path. -/
def removedLabel (dir : Bool) (p : Str) : Str :=
  if dir then "📁 ".toList ++ p ++ "/".toList else "📄 ".toList ++ p

/-- cleanup_template_files: iterate over the removal list; an error for a
path is caught, logged and skipped; an existing path is removed and
recorded. -/
def cleanup_template_files (fs : CleanupFs) (c : Config) : List Str :=
  (get_files_to_remove c).foldl
    (fun removed p =>
      if fs.removeErr p then removed
      else if fs.fileExists p then removed ++ [removedLabel (fs.isDir p) p]
      else removed)
    []

theorem pyReplaceF_nil (old new : Str) (n : Nat) : pyReplaceF old new n [] = [] := by
  cases n <;> rfl

theorem pyReplaceF_eq_of_le (old new : Str) :
    ∀ (n : Nat) (m : Nat) (s : Str), s.length ≤ n → s.length ≤ m →
      pyReplaceF old new n s = pyReplaceF old new m s := by
  intro n
  induction n with
  | zero =>
    intro m s hn _
    have hs : s = [] := List.eq_nil_of_length_eq_zero (Nat.le_zero.mp hn)
    subst hs
    rw [pyReplaceF_nil, pyReplaceF_nil]
  | succ n ih =>
    intro m s hn hm
    cases s with
    | nil => rw [pyReplaceF_nil, pyReplaceF_nil]
    | cons c rest =>
      cases m with
      | zero => simp at hm
      | succ m =>
        show pyReplaceF old new (n + 1) (c :: rest) = pyReplaceF old new (m + 1) (c :: rest)
        rw [pyReplaceF, pyReplaceF]
        by_cases h : old ≠ [] ∧ old.isPrefixOf (c :: rest)
        · rw [if_pos h, if_pos h]
          have hold : 1 ≤ old.length := by
            have := List.length_pos.mpr h.1
            omega
          have hlen : ((c :: rest).drop old.length).length ≤ rest.length := by
            rw [List.length_drop]
            simp only [List.length_cons]
            omega
          have h1 : ((c :: rest).drop old.length).length ≤ n := by
            simp only [List.length_cons] at hn; omega
          have h2 : ((c :: rest).drop old.length).length ≤ m := by
            simp only [List.length_cons] at hm; omega
          rw [ih m _ h1 h2]
        · rw [if_neg h, if_neg h]
          have h1 : rest.length ≤ n := by
            simp only [List.length_cons] at hn; omega
          have h2 : rest.length ≤ m := by
            simp only [List.length_cons] at hm; omega
          rw [ih m rest h1 h2]

theorem pyReplace_nil (old new : Str) : pyReplace old new [] = [] := rfl

theorem pyReplace_cons (old new : Str) (c : Char) (rest : Str) :
    pyReplace old new (c :: rest) =
      if old ≠ [] ∧ old.isPrefixOf (c :: rest) then
        new ++ pyReplace old new ((c :: rest).drop old.length)
      else
        c :: pyReplace old new rest := by
  show pyReplaceF old new (rest.length + 1) (c :: rest) = _
  rw [pyReplaceF]
  by_cases h : old ≠ [] ∧ old.isPrefixOf (c :: rest)
  · rw [if_pos h, if_pos h]
    have hold : 1 ≤ old.length := by
      have := List.length_pos.mpr h.1
      omega
    have hlen : ((c :: rest).drop old.length).length ≤ rest.length := by
      rw [List.length_drop]
      simp only [List.length_cons]
      omega
    rw [pyReplaceF_eq_of_le old new rest.length ((c :: rest).drop old.length).length _ hlen
      (Nat.le_refl _)]
    rfl
  · rw [if_neg h, if_neg h]
    rw [pyReplace]

/-- A pass of str.replace whose pattern does not occur in the input is the
identity. -/
theorem pyReplace_notOccurs (old new : Str) :
    ∀ s : Str, ¬ old <:+: s → pyReplace old new s = s := by
  intro s
  induction s with
  | nil => intro _; rfl
  | cons c rest ih =>
    intro h
    rw [pyReplace_cons]
    have hcond : ¬ (old ≠ [] ∧ old.isPrefixOf (c :: rest)) := by
      rintro ⟨_, hpre⟩
      exact h (List.IsPrefix.isInfix (List.isPrefixOf_iff_prefix.mp hpre))
    rw [if_neg hcond]
    have hrest : ¬ old <:+: rest := fun hinf => h (List.infix_cons hinf)
    rw [ih hrest]

theorem renderStr_nil (s : Str) : renderStr [] s = s := rfl

theorem renderStr_cons (kv : Str × Str) (fields : List (Str × Str)) (s : Str) :
    renderStr (kv :: fields) s = renderStr fields (pyReplace (placeholderOf kv.1) kv.2 s) := rfl

/-- Claim C2: for every configuration record, rendering any text (file path or
file content) that contains no placeholder token of any field of the record
returns that text unchanged: the renderer is the identity on token-free
input. -/
theorem claim_C2_render_identity (fields : List (Str × Str)) (s : Str)
    (h : ∀ kv ∈ fields, ¬ placeholderOf kv.1 <:+: s) :
    renderStr fields s = s := by
  induction fields with
  | nil => rfl
  | cons kv rest ih =>
    rw [renderStr_cons, pyReplace_notOccurs _ _ s (h kv (List.mem_cons_self kv rest))]
    exact ih (fun kv' h' => h kv' (List.mem_cons_of_mem kv h'))

/-- Witness for claim C2 at a concrete record and a token-free text. -/
theorem claim_C2_witness :
    renderStr [("project_name".toList, "demo".toList)] "README.md".toList = "README.md".toList :=
  claim_C2_render_identity _ _ (by decide)

/-- A pass of str.replace on a string that starts with the pattern replaces
that occurrence and continues scanning only on the remainder of the original
string: the substituted value is emitted verbatim and never re-scanned by the
same pass. -/
theorem pyReplace_self_prefix (old new t : Str) (h : old ≠ []) :
    pyReplace old new (old ++ t) = new ++ pyReplace old new t := by
  cases old with
  | nil => exact absurd rfl h
  | cons c old' =>
    rw [List.cons_append, pyReplace_cons]
    have hpre : List.isPrefixOf (c :: old') (c :: (old' ++ t)) = true := by
      rw [List.isPrefixOf_iff_prefix]
      exact ⟨t, by simp⟩
    rw [if_pos ⟨h, hpre⟩]
    congr 1
    have hdrop : List.drop (c :: old').length (c :: (old' ++ t)) = t := by
      rw [← List.cons_append]
      exact List.drop_left (c :: old') t
    rw [hdrop]

/-- Claim C3, counterexample: in the record cexFieldsC3 the value of field a
contains field b's token, and b's later replacement pass does re-scan the
substituted value, so the rendered output resolves the token instead of
leaving it unresolved as the claim states. -/
theorem claim_C3_counterexample :
    renderStr cexFieldsC3 (placeholderOf "a".toList) = "x".toList ∧
      ¬ placeholderOf "b".toList <:+: renderStr cexFieldsC3 (placeholderOf "a".toList) := by
  constructor
  · rfl
  · decide

/-- Claim C3, amended: placeholder resolution performs one exact
string-replacement pass per field in record iteration order, and within a
single pass a substituted value is never re-scanned: rendering a text that
starts with a field's token under the single-field record substitutes the
value verbatim and continues only on the remainder of the original text, even
when the value itself contains placeholder tokens. (Across passes, a later
field's replacement does re-scan previously substituted text, as the
counterexample shows.) -/
theorem claim_C3_amended (f v t : Str) :
    renderStr [(f, v)] (placeholderOf f ++ t) = v ++ pyReplace (placeholderOf f) v t := by
  rw [renderStr_cons, renderStr_nil]
  exact pyReplace_self_prefix (placeholderOf f) v t (by simp [placeholderOf])

theorem promptStep_bool (p : PromptSpec) (i : Str) (hb : p.is_bool = true) :
    promptStep p i =
      if pyLower (promptInput p i) ∈ yesAnswers then some (PValue.bool true)
      else if pyLower (promptInput p i) ∈ noAnswers then some (PValue.bool false)
      else none := by
  unfold promptStep
  rw [hb, if_pos rfl]

theorem promptStep_choices (p : PromptSpec) (i : Str) (hb : p.is_bool = false)
    (hc : p.choices ≠ []) :
    promptStep p i =
      match parseInt (promptInput p i) with
      | some n =>
        if 0 ≤ n - 1 ∧ n - 1 < (p.choices.length : Int) then
          some (PValue.str (p.choices.getD (n - 1).toNat []))
        else none
      | none =>
        if promptInput p i ∈ p.choices then some (PValue.str (promptInput p i)) else none := by
  unfold promptStep
  rw [hb, if_neg Bool.false_ne_true, if_pos hc]

theorem promptStep_free (p : PromptSpec) (i : Str) (hb : p.is_bool = false)
    (hc : p.choices = []) :
    promptStep p i =
      match p.validator with
      | some V => if V (promptInput p i) then some (PValue.str (promptInput p i)) else none
      | none => some (PValue.str (promptInput p i)) := by
  unfold promptStep
  rw [hb, if_neg Bool.false_ne_true, if_neg (fun hh => hh hc)]

theorem promptStep_valid (p : PromptSpec) (i : Str) (v : PValue)
    (h : promptStep p i = some v) : validAnswer p v := by
  by_cases hb : p.is_bool = true
  · rw [promptStep_bool p i hb] at h
    split_ifs at h with h1 h2
    · cases h
      exact hb
    · cases h
      exact hb
  · have hbf : p.is_bool = false := by revert hb; cases p.is_bool <;> simp
    by_cases hc : p.choices ≠ []
    · rw [promptStep_choices p i hbf hc] at h
      split at h
      · rename_i n hp
        split_ifs at h with hr
        cases h
        obtain ⟨hr1, hr2⟩ := hr
        refine ⟨hbf, fun _ => ?_, fun hce => absurd hce hc⟩
        have hlt : (n - 1).toNat < p.choices.length := by omega
        rw [List.getD_eq_getElem _ _ hlt]
        exact List.getElem_mem hlt
      · rename_i hp
        split_ifs at h with hm
        cases h
        exact ⟨hbf, fun _ => hm, fun hce => absurd hce hc⟩
    · have hce : p.choices = [] := not_not.mp hc
      rw [promptStep_free p i hbf hce] at h
      split at h
      · rename_i V hV
        split_ifs at h with hval
        cases h
        refine ⟨hbf, fun hne => absurd hce hne, fun _ V' hV' => ?_⟩
        rw [hV] at hV'
        cases hV'
        exact hval
      · rename_i hV
        cases h
        refine ⟨hbf, fun hne => absurd hce hne, fun _ V' hV' => ?_⟩
        rw [hV] at hV'
        cases hV'

theorem get_user_input_none (p : PromptSpec) (inputs : List Str)
    (h : ∀ i ∈ inputs, promptStep p i = none) : get_user_input p inputs = none := by
  induction inputs with
  | nil => rfl
  | cons i rest ih =>
    have hi := h i (List.mem_cons_self i rest)
    simp only [get_user_input, hi]
    exact ih (fun j hj => h j (List.mem_cons_of_mem i hj))

theorem get_user_input_some (p : PromptSpec) :
    ∀ (inputs : List Str) (v : PValue), get_user_input p inputs = some v →
      ∃ i ∈ inputs, promptStep p i = some v := by
  intro inputs
  induction inputs with
  | nil =>
    intro v h
    exact absurd h (by simp [get_user_input])
  | cons i rest ih =>
    intro v h
    cases hs : promptStep p i with
    | some w =>
      simp only [get_user_input, hs] at h
      exact ⟨i, List.mem_cons_self i rest, by rw [hs, h]⟩
    | none =>
      simp only [get_user_input, hs] at h
      obtain ⟨j, hj, hjs⟩ := ih v h
      exact ⟨j, List.mem_cons_of_mem i hj, hjs⟩

/-- Claim C9: for every input sequence, get_user_input keeps re-prompting on
invalid input (a loop iteration that accepts no value consumes the answer and
continues), returns only a value produced by some iteration from some
supplied answer, and every returned value is valid: a boolean only in boolean
mode, an element of the choices list in choices mode, and a string accepted
by the validator when one is supplied; invalid answers are never returned and
no exception escapes the loop (every iteration is total). -/
theorem claim_C9_reprompt_until_valid (p : PromptSpec) (inputs : List Str) :
    ((∀ i ∈ inputs, promptStep p i = none) → get_user_input p inputs = none)
    ∧ (∀ v, get_user_input p inputs = some v → ∃ i ∈ inputs, promptStep p i = some v)
    ∧ (∀ i v, promptStep p i = some v → validAnswer p v) :=
  ⟨get_user_input_none p inputs,
   fun v h => get_user_input_some p inputs v h,
   fun i v h => promptStep_valid p i v h⟩

/-- Witness for claim C9: a validated prompt rejects a wrong answer and
accepts a stripped valid one. -/
theorem claim_C9_witness :
    get_user_input ⟨none, [], some (fun s => s == "my-lib".toList), false⟩ ["bad".toList] = none
    ∧ ∃ i ∈ ["  my-lib  ".toList],
        promptStep ⟨none, [], some (fun s => s == "my-lib".toList), false⟩ i
          = some (PValue.str "my-lib".toList) :=
  ⟨(claim_C9_reprompt_until_valid ⟨none, [], some (fun s => s == "my-lib".toList), false⟩
      ["bad".toList]).1 (by decide),
   (claim_C9_reprompt_until_valid ⟨none, [], some (fun s => s == "my-lib".toList), false⟩
      ["  my-lib  ".toList]).2.1 (PValue.str "my-lib".toList) (by decide)⟩

theorem promptStep_validator_irrel (d : Option Str) (ch : List Str)
    (V V' : Option (Str → Bool)) (b : Bool) (i : Str) (hb : b = true ∨ ch ≠ []) :
    promptStep ⟨d, ch, V, b⟩ i = promptStep ⟨d, ch, V', b⟩ i := by
  cases b with
  | true =>
    rw [promptStep_bool ⟨d, ch, V, true⟩ i rfl, promptStep_bool ⟨d, ch, V', true⟩ i rfl]
    rfl
  | false =>
    have hch : ch ≠ [] := by
      rcases hb with h1 | h1
      · exact absurd h1 (by simp)
      · exact h1
    rw [promptStep_choices ⟨d, ch, V, false⟩ i rfl hch,
      promptStep_choices ⟨d, ch, V', false⟩ i rfl hch]
    rfl

/-- Claim C10: with is_bool true or a non-empty choices list, get_user_input
returns before the validator check is reached, so the supplied validator is
never invoked (the result does not depend on it); in boolean mode every
returned value is a boolean, and in choices mode (non-boolean, non-empty
choices) every returned string is an element of the choices list. -/
theorem claim_C10_mode_precedence (d : Option Str) (ch : List Str)
    (V V' : Option (Str → Bool)) (b : Bool) (inputs : List Str)
    (hb : b = true ∨ ch ≠ []) :
    get_user_input ⟨d, ch, V, b⟩ inputs = get_user_input ⟨d, ch, V', b⟩ inputs
    ∧ (b = true → ∀ v, get_user_input ⟨d, ch, V, b⟩ inputs = some v → ∃ bv, v = PValue.bool bv)
    ∧ (b = false → ∀ s, get_user_input ⟨d, ch, V, b⟩ inputs = some (PValue.str s) → s ∈ ch) := by
  refine ⟨?_, ?_, ?_⟩
  · induction inputs with
    | nil => rfl
    | cons i rest ih =>
      simp only [get_user_input, promptStep_validator_irrel d ch V V' b i hb, ih]
  · intro hbt v h
    obtain ⟨i, _, hs⟩ := get_user_input_some _ _ v h
    have hv := promptStep_valid _ _ _ hs
    cases v with
    | bool bv => exact ⟨bv, rfl⟩
    | str s =>
      exfalso
      have hb2 : b = false := hv.1
      rw [hbt] at hb2
      simp at hb2
  · intro hbf s h
    obtain ⟨i, _, hs⟩ := get_user_input_some _ _ _ h
    have hv := promptStep_valid _ _ _ hs
    have hch : ch ≠ [] := by
      rcases hb with h1 | h1
      · rw [hbf] at h1; simp at h1
      · exact h1
    exact hv.2.1 hch

/-- Witness for claim C10: a choices prompt ignores an always-rejecting
validator and returns the numerically selected choice, an element of the
list. -/
theorem claim_C10_witness :
    get_user_input ⟨none, ["app".toList, "library".toList], some (fun _ => false), false⟩
        ["2".toList]
      = get_user_input ⟨none, ["app".toList, "library".toList], none, false⟩ ["2".toList]
    ∧ "library".toList ∈ ["app".toList, "library".toList] :=
  ⟨(claim_C10_mode_precedence none ["app".toList, "library".toList] (some (fun _ => false))
      none false ["2".toList] (Or.inr (by decide))).1,
   (claim_C10_mode_precedence none ["app".toList, "library".toList] (some (fun _ => false))
      none false ["2".toList] (Or.inr (by decide))).2.2 rfl "library".toList (by decide)⟩

theorem strContains_spec (pat : Str) :
    ∀ s : Str, strContains s pat = true ↔ pat <:+: s := by
  intro s
  induction s with
  | nil => simp [strContains, List.isEmpty_iff, List.infix_nil]
  | cons c rest ih =>
    simp only [strContains, Bool.or_eq_true, List.isPrefixOf_iff_prefix, ih,
      List.infix_cons_iff]

theorem processOne_ok (o : FsOracle) (c : Config) (sr dr : List Str)
    (st : List (Str × Str)) (f : SrcFile) (h : o.copyErr f = false) :
    processOne o c sr dr st f = Except.ok (walkStep o c sr dr st f) := by
  cases h1 : insideDst sr dr f <;> cases h2 : excludedFile c f <;>
    simp [processOne, walkStep, keepFile, h, h1, h2]

theorem processDir_ok (o : FsOracle) (c : Config) (sr dr : List Str) :
    ∀ (files : List SrcFile) (st : List (Str × Str)),
      (∀ f ∈ files, o.copyErr f = false) →
      processDir o c sr dr files st = Except.ok (files.foldl (walkStep o c sr dr) st) := by
  intro files
  induction files with
  | nil => intro st _; rfl
  | cons f fs ih =>
    intro st h
    have hf := h f (List.mem_cons_self f fs)
    show (match processOne o c sr dr st f with
      | Except.ok st' => processDir o c sr dr fs st'
      | Except.error e => Except.error e) = _
    rw [processOne_ok o c sr dr st f hf, List.foldl_cons]
    exact ih (walkStep o c sr dr st f) (fun g hg => h g (List.mem_cons_of_mem f hg))

theorem lookup_foldl_walkStep (o : FsOracle) (c : Config) (sr dr : List Str) (p : Str) :
    ∀ (files : List SrcFile) (st : List (Str × Str)),
      List.lookup p (files.foldl (walkStep o c sr dr) st)
        = match walkLookup o c sr dr p files with
          | some v => some v
          | none => List.lookup p st := by
  intro files
  induction files with
  | nil => intro st; rfl
  | cons f fs ih =>
    intro st
    rw [List.foldl_cons, ih (walkStep o c sr dr st f)]
    cases hw : walkLookup o c sr dr p fs with
    | some v => simp only [walkLookup, hw]
    | none =>
      simp only [walkLookup, hw]
      by_cases hk : keepFile c sr dr f ∧ dstRelPath c f = p
      · rw [if_pos hk]
        unfold walkStep
        rw [if_pos hk.1, ← hk.2]
        simp [List.lookup]
      · rw [if_neg hk]
        unfold walkStep
        by_cases hkf : keepFile c sr dr f = true
        · rw [if_pos hkf]
          have hne : (p == dstRelPath c f) = false := by
            rw [beq_eq_false_iff_ne]
            exact fun hp => hk ⟨hkf, hp.symm⟩
          simp [List.lookup, hne]
        · rw [if_neg hkf]

theorem walkLookup_isSome (o : FsOracle) (c : Config) (sr dr : List Str) (p : Str) :
    ∀ files : List SrcFile,
      (walkLookup o c sr dr p files).isSome = true
        ↔ ∃ f ∈ files, keepFile c sr dr f = true ∧ dstRelPath c f = p := by
  intro files
  induction files with
  | nil => simp [walkLookup]
  | cons f fs ih =>
    cases hw : walkLookup o c sr dr p fs with
    | some v =>
      simp only [walkLookup, hw]
      constructor
      · intro _
        obtain ⟨g, hg, hgs⟩ := ih.mp (by rw [hw]; rfl)
        exact ⟨g, List.mem_cons_of_mem f hg, hgs⟩
      · intro _; rfl
    | none =>
      simp only [walkLookup, hw]
      by_cases hk : keepFile c sr dr f ∧ dstRelPath c f = p
      · rw [if_pos hk]
        constructor
        · intro _
          exact ⟨f, List.mem_cons_self f fs, hk⟩
        · intro _; rfl
      · rw [if_neg hk]
        constructor
        · intro hfalse
          exact absurd hfalse (by simp)
        · rintro ⟨g, hg, hgs⟩
          rcases List.mem_cons.mp hg with rfl | hg'
          · exact absurd hgs hk
          · have hx := ih.mpr ⟨g, hg', hgs⟩
            rw [hw] at hx
            exact absurd hx (by simp)

theorem walkLookup_some (o : FsOracle) (c : Config) (sr dr : List Str) (p : Str) :
    ∀ (files : List SrcFile) (v : Str), walkLookup o c sr dr p files = some v →
      ∃ f ∈ files, keepFile c sr dr f = true ∧ dstRelPath c f = p
        ∧ v = outContent c o f := by
  intro files
  induction files with
  | nil =>
    intro v h
    exact absurd h (by simp [walkLookup])
  | cons f fs ih =>
    intro v h
    cases hw : walkLookup o c sr dr p fs with
    | some w =>
      simp only [walkLookup, hw, Option.some.injEq] at h
      obtain ⟨g, hg, h1, h2, h3⟩ := ih w hw
      exact ⟨g, List.mem_cons_of_mem f hg, h1, h2, h ▸ h3⟩
    | none =>
      simp only [walkLookup, hw] at h
      by_cases hk : keepFile c sr dr f ∧ dstRelPath c f = p
      · rw [if_pos hk] at h
        cases h
        exact ⟨f, List.mem_cons_self f fs, hk.1, hk.2, rfl⟩
      · rw [if_neg hk] at h
        exact absurd h (by simp)

/-- Claim C1: for every configuration record and source/destination pair,
after a full (error-free) run of process_template_directory the destination
store contains exactly the source files that are neither inside the
destination root nor excluded by an Exclusion Set fragment: a destination
path is present exactly when some kept source file renders (with the
template suffix stripped) to it, and its content is the rendered (or, for
binary or undecodable files, the raw copied) content of such a source
file. -/
theorem claim_C1_walk_exact (c : Config) (sr dr : List Str) (files : List SrcFile)
    (p : Str) :
    process_template_directory noFail c sr dr files = Except.ok (walkOk noFail c sr dr files)
    ∧ ((List.lookup p (walkOk noFail c sr dr files)).isSome = true
        ↔ ∃ f ∈ files, keepFile c sr dr f = true ∧ dstRelPath c f = p)
    ∧ (∀ v, List.lookup p (walkOk noFail c sr dr files) = some v
        → ∃ f ∈ files, keepFile c sr dr f = true ∧ dstRelPath c f = p
            ∧ v = outContent c noFail f) := by
  have hmain : List.lookup p (walkOk noFail c sr dr files)
      = walkLookup noFail c sr dr p files := by
    rw [walkOk, lookup_foldl_walkStep noFail c sr dr p files []]
    cases walkLookup noFail c sr dr p files <;> rfl
  refine ⟨processDir_ok noFail c sr dr files [] (fun f _ => rfl), ?_, ?_⟩
  · rw [hmain]
    exact walkLookup_isSome noFail c sr dr p files
  · intro v hv
    rw [hmain] at hv
    exact walkLookup_some noFail c sr dr p files v hv

/-- Witness for claim C1: a one-file template tree rendered into a disjoint
destination, evaluated concretely. -/
theorem claim_C1_witness :
    ∃ f ∈ [(⟨["README.md".toList], "# \x7b\x7bPROJECT_NAME\x7d\x7d hello".toList, true⟩ : SrcFile)],
      keepFile ⟨[("project_name".toList, "demo".toList)], true, true, true, true, true⟩
          [] ["out".toList] f = true
      ∧ dstRelPath ⟨[("project_name".toList, "demo".toList)], true, true, true, true, true⟩ f
          = "README.md".toList
      ∧ "# demo hello".toList
          = outContent ⟨[("project_name".toList, "demo".toList)], true, true, true, true, true⟩
              noFail f :=
  (claim_C1_walk_exact ⟨[("project_name".toList, "demo".toList)], true, true, true, true, true⟩
      [] ["out".toList]
      [⟨["README.md".toList], "# \x7b\x7bPROJECT_NAME\x7d\x7d hello".toList, true⟩]
      "README.md".toList).2.2 "# demo hello".toList (by decide)

/-- A filesystem oracle in which the copy of the file a.txt raises a
PermissionError. -/
def cexOracleC8 : FsOracle := ⟨fun f => f.rel == ["a.txt".toList], fun _ => false⟩

theorem skipFiles_mem_aux (pc gh : Bool) :
    "Dockerfile.dev".toList ∈ skipFiles ⟨[], false, pc, gh, false, false⟩
    ∧ "Dockerfile.data".toList ∈ skipFiles ⟨[], false, pc, gh, false, false⟩
    ∧ "docker-compose.yml".toList ∈ skipFiles ⟨[], false, pc, gh, false, false⟩
    ∧ "notebooks".toList ∈ skipFiles ⟨[], false, pc, gh, false, false⟩
    ∧ "src/\x7b\x7bPROJECT_NAME\x7d\x7d/spark_utils.py".toList
        ∈ skipFiles ⟨[], false, pc, gh, false, false⟩ := by
  cases pc <;> cases gh <;> decide

theorem removal_list_aux (d pc gh ju sp : Bool) :
    (∀ b ∈ base_files_to_remove, b ∈ get_files_to_remove ⟨[], d, pc, gh, ju, sp⟩)
    ∧ ("notebooks".toList ∈ get_files_to_remove ⟨[], d, pc, gh, ju, sp⟩ ↔ ju = false)
    ∧ ("scripts/setup_spark.py".toList ∈ get_files_to_remove ⟨[], d, pc, gh, ju, sp⟩
        ↔ sp = false)
    ∧ (("Dockerfile.dev".toList ∈ get_files_to_remove ⟨[], d, pc, gh, ju, sp⟩
        ∧ "Dockerfile.data".toList ∈ get_files_to_remove ⟨[], d, pc, gh, ju, sp⟩
        ∧ "docker-compose.yml".toList ∈ get_files_to_remove ⟨[], d, pc, gh, ju, sp⟩
        ∧ ".dockerignore".toList ∈ get_files_to_remove ⟨[], d, pc, gh, ju, sp⟩) ↔ d = false)
    ∧ ((".github/workflows/ci.yml".toList ∈ get_files_to_remove ⟨[], d, pc, gh, ju, sp⟩
        ∧ ".github/workflows/release.yml".toList ∈ get_files_to_remove ⟨[], d, pc, gh, ju, sp⟩)
          ↔ gh = false)
    ∧ (".pre-commit-config.yaml".toList ∈ get_files_to_remove ⟨[], d, pc, gh, ju, sp⟩
        ↔ pc = false)
    ∧ ((∀ doc ∈ template_docs, doc ∈ get_files_to_remove ⟨[], d, pc, gh, ju, sp⟩)
        → "docs".toList ∈ get_files_to_remove ⟨[], d, pc, gh, ju, sp⟩) := by
  cases d <;> cases pc <;> cases gh <;> cases ju <;> cases sp <;> decide

theorem processDir_skip_inside (o : FsOracle) (c : Config) (sr dr : List Str) :
    ∀ (files : List SrcFile) (st : List (Str × Str)),
      processDir o c sr dr files st
        = processDir o c sr dr (files.filter (fun g => !insideDst sr dr g)) st := by
  intro files
  induction files with
  | nil => intro st; rfl
  | cons f fs ih =>
    intro st
    by_cases hin : insideDst sr dr f = true
    · have hskip : processOne o c sr dr st f = Except.ok st := by
        unfold processOne
        rw [if_pos hin]
      have hfil : (f :: fs).filter (fun g => !insideDst sr dr g)
          = fs.filter (fun g => !insideDst sr dr g) := by
        simp [List.filter_cons, hin]
      rw [hfil]
      show (match processOne o c sr dr st f with
        | Except.ok st' => processDir o c sr dr fs st'
        | Except.error e => Except.error e) = _
      rw [hskip]
      exact ih st
    · have hfil : (f :: fs).filter (fun g => !insideDst sr dr g)
          = f :: fs.filter (fun g => !insideDst sr dr g) := by
        simp [List.filter_cons, hin]
      rw [hfil]
      show (match processOne o c sr dr st f with
          | Except.ok st' => processDir o c sr dr fs st'
          | Except.error e => Except.error e)
        = (match processOne o c sr dr st f with
          | Except.ok st' => processDir o c sr dr (fs.filter (fun g => !insideDst sr dr g)) st'
          | Except.error e => Except.error e)
      cases processOne o c sr dr st f with
      | ok st' => exact ih st'
      | error e => rfl

/-- Claim C4: during the walk every enumerated source file whose path lies
inside the destination root is skipped without copying or rendering (the
iteration returns the store unchanged), so the walk over an enumeration
equals the walk over the enumeration with all such files removed; in
particular, when the destination root is a subdirectory of the source root,
files already written under the destination are never re-processed. -/
theorem claim_C4_self_copy_guard (o : FsOracle) (c : Config) (sr dr : List Str)
    (st : List (Str × Str)) (f : SrcFile) (files : List SrcFile) :
    (insideDst sr dr f = true → processOne o c sr dr st f = Except.ok st)
    ∧ process_template_directory o c sr dr files
        = process_template_directory o c sr dr (files.filter (fun g => !insideDst sr dr g)) := by
  constructor
  · intro hin
    unfold processOne
    rw [if_pos hin]
  · exact processDir_skip_inside o c sr dr files []

/-- Witness for claim C4: with the destination root a subdirectory of the
source root, a file under the destination is skipped concretely. -/
theorem claim_C4_witness :
    processOne noFail ⟨[], true, true, true, true, true⟩ [] ["out".toList] []
        ⟨["out".toList, "x.txt".toList], "X".toList, true⟩
      = Except.ok [] :=
  (claim_C4_self_copy_guard noFail ⟨[], true, true, true, true, true⟩ [] ["out".toList] []
      ⟨["out".toList, "x.txt".toList], "X".toList, true⟩ []).1 (by decide)

set_option maxRecDepth 8192 in
/-- Claim C5 evaluation: the validator accepts my-lib and x2y and rejects
Test, -bad, test, ab-, the empty string and a 215-character string as the
claim states; but it also rejects the single-letter name a, because the
length guard precedes the single-letter pattern branch, leaving that branch
dead — contrary to the documented relaxed single-letter rule. -/
theorem claim_C5_validator_eval :
    validate_project_name "my-lib".toList = true
    ∧ validate_project_name "x2y".toList = true
    ∧ validate_project_name "Test".toList = false
    ∧ validate_project_name "-bad".toList = false
    ∧ validate_project_name "test".toList = false
    ∧ validate_project_name "ab-".toList = false
    ∧ validate_project_name [] = false
    ∧ validate_project_name (List.replicate 215 'a') = false
    ∧ validate_project_name "a".toList = false := by
  refine ⟨rfl, rfl, rfl, rfl, rfl, rfl, rfl, ?_, rfl⟩
  have hlen : (List.replicate 215 'a').length = 215 := List.length_replicate 215 'a'
  simp [validate_project_name, hlen]

/-- Claim C6: the Exclusion Set is a function of the feature flags alone:
with docker, notebooks and spark all declined it contains the Docker
filenames, the notebooks directory and the spark utility module path; with
every flag enabled it is empty, so no file is excluded purely because flags
are on; and a source file is skipped exactly when its relative path contains
some fragment as a substring. -/
theorem claim_C6_exclusion_set (c : Config) (f : SrcFile) :
    (c.use_docker = false → c.use_jupyter = false → c.use_spark = false →
      ("Dockerfile.dev".toList ∈ skipFiles c ∧ "Dockerfile.data".toList ∈ skipFiles c
        ∧ "docker-compose.yml".toList ∈ skipFiles c ∧ "notebooks".toList ∈ skipFiles c
        ∧ "src/\x7b\x7bPROJECT_NAME\x7d\x7d/spark_utils.py".toList ∈ skipFiles c))
    ∧ (c.use_docker = true → c.use_pre_commit = true → c.use_github_actions = true →
        c.use_jupyter = true → c.use_spark = true → skipFiles c = [])
    ∧ (excludedFile c f = true ↔ ∃ frag ∈ skipFiles c, frag <:+: joinPath f.rel) := by
  obtain ⟨fl, d, pc, gh, ju, sp⟩ := c
  refine ⟨?_, ?_, ?_⟩
  · intro h1 h2 h3
    simp only at h1 h2 h3
    subst h1; subst h2; subst h3
    exact skipFiles_mem_aux pc gh
  · intro h1 h2 h3 h4 h5
    simp only at h1 h2 h3 h4 h5
    subst h1; subst h2; subst h3; subst h4; subst h5
    rfl
  · simp only [excludedFile, List.any_eq_true]
    constructor
    · rintro ⟨frag, hmem, hc⟩
      exact ⟨frag, hmem, (strContains_spec frag _).mp hc⟩
    · rintro ⟨frag, hmem, hc⟩
      exact ⟨frag, hmem, (strContains_spec frag _).mpr hc⟩

/-- Witness for claim C6: the all-false and all-true flag configurations
evaluated concretely. -/
theorem claim_C6_witness :
    ("notebooks".toList ∈ skipFiles ⟨[], false, false, false, false, false⟩)
    ∧ skipFiles ⟨[], true, true, true, true, true⟩ = [] :=
  ⟨((claim_C6_exclusion_set ⟨[], false, false, false, false, false⟩ ⟨[], [], true⟩).1
      rfl rfl rfl).2.2.2.1,
   (claim_C6_exclusion_set ⟨[], true, true, true, true, true⟩ ⟨[], [], true⟩).2.1
      rfl rfl rfl rfl rfl⟩

/-- Claim C7: the Removal List always contains the base scaffolding paths
(the generator script, the roadmap, the template-repo marker, the template
context file, the three template docs, the protection workflow and the CI
workflow template); each flag-gated path is present exactly when its feature
flag is false; and the docs directory is slated whenever all three template
doc files are slated (which the base list guarantees). -/
theorem claim_C7_removal_list (c : Config) :
    (∀ b ∈ base_files_to_remove, b ∈ get_files_to_remove c)
    ∧ ("notebooks".toList ∈ get_files_to_remove c ↔ c.use_jupyter = false)
    ∧ ("scripts/setup_spark.py".toList ∈ get_files_to_remove c ↔ c.use_spark = false)
    ∧ (("Dockerfile.dev".toList ∈ get_files_to_remove c
        ∧ "Dockerfile.data".toList ∈ get_files_to_remove c
        ∧ "docker-compose.yml".toList ∈ get_files_to_remove c
        ∧ ".dockerignore".toList ∈ get_files_to_remove c) ↔ c.use_docker = false)
    ∧ ((".github/workflows/ci.yml".toList ∈ get_files_to_remove c
        ∧ ".github/workflows/release.yml".toList ∈ get_files_to_remove c)
          ↔ c.use_github_actions = false)
    ∧ (".pre-commit-config.yaml".toList ∈ get_files_to_remove c ↔ c.use_pre_commit = false)
    ∧ ((∀ d ∈ template_docs, d ∈ get_files_to_remove c)
        → "docs".toList ∈ get_files_to_remove c) := by
  obtain ⟨fl, d, pc, gh, ju, sp⟩ := c
  exact removal_list_aux d pc gh ju sp

/-- Witness for claim C7: the docs rule applied at a concrete
configuration. -/
theorem claim_C7_witness :
    "docs".toList ∈ get_files_to_remove ⟨[], true, true, true, true, true⟩ :=
  (claim_C7_removal_list ⟨[], true, true, true, true, true⟩).2.2.2.2.2.2 (by decide)

theorem cleanup_foldl (fs : CleanupFs) :
    ∀ (l : List Str) (acc : List Str),
      l.foldl
        (fun removed p =>
          if fs.removeErr p then removed
          else if fs.fileExists p then removed ++ [removedLabel (fs.isDir p) p]
          else removed)
        acc
      = acc ++ (l.filter (fun p => !fs.removeErr p && fs.fileExists p)).map
          (fun p => removedLabel (fs.isDir p) p) := by
  intro l
  induction l with
  | nil => intro acc; simp
  | cons p rest ih =>
    intro acc
    rw [List.foldl_cons]
    by_cases h1 : fs.removeErr p = true
    · rw [if_pos h1, ih acc]
      congr 1
      simp [List.filter_cons, h1]
    · rw [if_neg h1]
      have h1f : fs.removeErr p = false := by revert h1; cases fs.removeErr p <;> simp
      by_cases h2 : fs.fileExists p = true
      · rw [if_pos h2, ih]
        simp [List.filter_cons, h1f, h2]
      · rw [if_neg h2, ih acc]
        have h2f : fs.fileExists p = false := by revert h2; cases fs.fileExists p <;> simp
        congr 1
        simp [List.filter_cons, h1f, h2f]

/-- Claim C8, counterexample: a PermissionError raised by the copy step
(shutil.copy2 or mkdir) inside the walk loop is not caught per-file: with an
oracle failing the copy of the first file, the whole walk aborts with the
exception and the second (healthy) file is never processed, whereas the
error-free run writes both files. -/
theorem claim_C8_counterexample :
    process_template_directory cexOracleC8 ⟨[], true, true, true, true, true⟩ [] ["out".toList]
        [⟨["a.txt".toList], "A".toList, true⟩, ⟨["b.txt".toList], "B".toList, true⟩]
      = Except.error ()
    ∧ process_template_directory noFail ⟨[], true, true, true, true, true⟩ [] ["out".toList]
        [⟨["a.txt".toList], "A".toList, true⟩, ⟨["b.txt".toList], "B".toList, true⟩]
      = Except.ok [("b.txt".toList, "B".toList), ("a.txt".toList, "A".toList)] :=
  ⟨rfl, rfl⟩

/-- Claim C8, amended: filesystem errors inside replace_template_vars
(content substitution) and inside cleanup_template_files (removal) are
caught per-file and skipped, so such a failure on one file never aborts the
rest of the tree operation: when no copy fails the walk completes over every
file (substitution failures merely leave the affected file with its copied
content), and cleanup processes every removal-list path, dropping only the
entries whose own removal failed. Errors of the copy step itself, however,
propagate and abort the walk, as the counterexample shows. -/
theorem claim_C8_amended_error_handling (o : FsOracle) (c : Config) (sr dr : List Str)
    (files : List SrcFile) (fs : CleanupFs) :
    ((∀ f ∈ files, o.copyErr f = false)
      → process_template_directory o c sr dr files = Except.ok (walkOk o c sr dr files))
    ∧ cleanup_template_files fs c
        = ((get_files_to_remove c).filter (fun p => !fs.removeErr p && fs.fileExists p)).map
            (fun p => removedLabel (fs.isDir p) p) := by
  constructor
  · intro h
    exact processDir_ok o c sr dr files [] h
  · rw [cleanup_template_files, cleanup_foldl fs (get_files_to_remove c) []]
    simp

/-- Witness for claim C8 (amended): an error-free walk over one file
completes, evaluated concretely. -/
theorem claim_C8_witness :
    process_template_directory noFail ⟨[], true, true, true, true, true⟩ [] ["out".toList]
        [⟨["a.txt".toList], "A".toList, true⟩]
      = Except.ok (walkOk noFail ⟨[], true, true, true, true, true⟩ [] ["out".toList]
          [⟨["a.txt".toList], "A".toList, true⟩]) :=
  (claim_C8_amended_error_handling noFail ⟨[], true, true, true, true, true⟩ [] ["out".toList]
      [⟨["a.txt".toList], "A".toList, true⟩]
      ⟨fun _ => false, fun _ => false, fun _ => false⟩).1 (by decide)

end PyProjectFactory
